import Mathlib

/-!
A shallow embedding of the CTPL thread pool (`ctpl_stl.h` / `ctpl_stl.tpp`),
together with theorems about its task queue, lifecycle state machine and
promise/future bookkeeping.

Modelling conventions:

* `detail::atomic_queue<T>` is a `std::queue` guarded by its own mutex; it is
  embedded as a `List` with the front at the head.  `push` appends at the back
  and returns `true`; `pop` removes the front element if present.
* The pool itself (`ctpl::thread_pool`) is embedded as a record `PoolState`
  and every public member function as a state transformer.  The embedding is
  a sequential, quiescent-state semantics: each public operation includes the
  worker activity it triggers, run to quiescence (workers drain the queue and
  park, or exit) before the next operation is considered.  This matches the
  spec's external-serialization contract for `resize`/`stop` and abstracts
  from thread interleavings.
* A task's `std::packaged_task` / `std::future` pair is modelled by a
  `PromiseState` per task id.  Destroying a never-invoked `std::packaged_task`
  (which happens when `clear_queue` or `stop` `delete`s a queued task) stores a
  broken-promise error into the shared state, per the C++ standard library
  semantics; this is the `brokenPromise` resolution.  Running the task stores
  a value (or the callable's own exception); the distinction value/exception
  is irrelevant to the claims considered here, so a run task resolves to
  `value`.
-/

namespace CTPL

/-- Resolution state of the promise/future pair wired up by
`thread_pool::push` for one submitted task. -/
inductive PromiseState where
  | unresolved : PromiseState
  | value : PromiseState
  | brokenPromise : PromiseState
  deriving DecidableEq, Repr

/-- `detail::atomic_queue<T>::push` (ctpl_stl.tpp lines 20-26): locks, appends
`value` at the back of the underlying `std::queue`, returns `true`. -/
def aq_push (q : List Nat) (v : Nat) : List Nat × Bool :=
  (q ++ [v], true)

/-- `detail::atomic_queue<T>::pop` (ctpl_stl.tpp lines 28-37): locks; if the
queue is empty returns `false` leaving it unchanged, otherwise removes the
front element and returns it with `true`.  The `bool` + out-parameter shape is
rendered as `List × Option`. -/
def aq_pop : List Nat → List Nat × Option Nat
  | [] => ([], none)
  | x :: xs => (xs, some x)

/-- `detail::atomic_queue<T>::empty` (ctpl_stl.tpp lines 39-44). -/
def aq_empty (q : List Nat) : Bool :=
  q.isEmpty

/-- Sequentially push every element of `vs` (in order) onto queue `q`,
as strictly sequential submissions from one thread do. -/
def aq_push_all (q : List Nat) (vs : List Nat) : List Nat :=
  vs.foldl (fun acc v => (aq_push acc v).1) q

/-- Fuelled worker loop of `thread_pool::start_thread` (ctpl_stl.tpp lines
247-316) for a single worker with no competing consumers, no stop command and
no concurrent pushes: repeatedly `pop` the queue and run what was obtained,
recording tasks in execution order, until `pop` fails.  The fuel only bounds
the recursion; `worker_run` supplies enough fuel to drain the queue. -/
def worker_run_fuel : Nat → List Nat → List Nat
  | 0, _ => []
  | fuel + 1, q =>
    match aq_pop q with
    | (_, none) => []
    | (rest, some t) => t :: worker_run_fuel fuel rest

/-- Execution order of a single worker draining queue `q`. -/
def worker_run (q : List Nat) : List Nat :=
  worker_run_fuel q.length q

/-- `ctpl::thread_pool`'s state (ctpl_stl.h lines 112-154).  Threads carry no
observable data beyond their existence, so the `threads` vector is a list of
units; `stop_flags` holds the current value of each per-slot
`shared_ptr<atomic<bool>>`; `tasks` is the id queue of the
`detail::atomic_queue` member, front first; `promises` maps each task id to
the resolution state of its promise/future pair; `next_id` is the next fresh
task id (ids `≥ next_id` are unused, hence `unresolved`). -/
structure PoolState where
  threads : List Unit
  stop_flags : List Bool
  tasks : List Nat
  promises : Nat → PromiseState
  next_id : Nat
  done : Bool
  stopped : Bool
  _n_idle : Nat

/-- `thread_pool::init` (ctpl_stl.tpp lines 318-321) together with the
default member construction: empty vectors, empty queue, both terminal flags
false, idle counter zero. -/
def init : PoolState :=
  { threads := [], stop_flags := [], tasks := [], promises := fun _ => .unresolved,
    next_id := 0, done := false, stopped := false, _n_idle := 0 }

/-- `thread_pool::size` (ctpl_stl.tpp lines 64-67). -/
def size (s : PoolState) : Nat :=
  s.threads.length

/-- `thread_pool::n_idle` (ctpl_stl.tpp lines 69-72). -/
def n_idle (s : PoolState) : Nat :=
  s._n_idle

/-- Resolution state of task `id`'s future in pool state `s`. -/
def promiseOf (s : PoolState) (id : Nat) : PromiseState :=
  s.promises id

/-- Resolve every still-unresolved promise whose task id lies in `ids` to
`r`, leaving all other promises untouched.  Used both for execution (a worker
runs the task, `r = value`) and for discarding (`delete` of the queued
`std::function` destroys its never-invoked `std::packaged_task`, which stores
a broken-promise failure, `r = brokenPromise`). -/
def resolveIds (ids : List Nat) (r : PromiseState) (f : Nat → PromiseState) :
    Nat → PromiseState :=
  fun i => if i ∈ ids ∧ f i = .unresolved then r else f i

/-- Quiescence closure of the worker loops (ctpl_stl.tpp lines 247-316): if
the pool has at least one live worker, the workers drain the task queue —
running every queued task, which resolves its promise — and then park waiting
on the condition variable, so at quiescence the queue is empty and every live
worker is idle.  With no workers nothing happens. -/
def settle (s : PoolState) : PoolState :=
  if s.threads.isEmpty then s
  else
    { s with tasks := [], promises := resolveIds s.tasks .value s.promises,
             _n_idle := s.threads.length }

/-- `std::vector::resize` on a vector of length `l.length`: truncate to `n`
or extend with `fill` up to length `n`. -/
def resizeTo (l : List α) (n : Nat) (fill : α) : List α :=
  l.take n ++ List.replicate (n - l.length) fill

/-- `thread_pool::push` (ctpl_stl.tpp lines 202-245): wraps the callable into
a packaged task paired with a fresh promise, appends it to the task queue,
notifies one waiting worker, and returns the future (here: the task id).
There is no check of `stopped`/`done` and no error path — `push` enqueues
unconditionally in every pool state.  The quiescence closure then lets live
workers (if any) pick the task up. -/
def push (s : PoolState) : PoolState × Nat :=
  (settle { s with tasks := s.tasks ++ [s.next_id], next_id := s.next_id + 1 },
   s.next_id)

/-- `thread_pool::clear_queue` (ctpl_stl.tpp lines 129-135): pops every
queued task and `delete`s it; destroying the never-invoked packaged task
resolves its future with a broken-promise failure. -/
def clear_queue (s : PoolState) : PoolState :=
  { s with tasks := [], promises := resolveIds s.tasks .brokenPromise s.promises }

/-- `thread_pool::resize` (ctpl_stl.tpp lines 79-127): does nothing once
`stopped` or `done` is set.  Otherwise both the thread vector and the
stop-flag vector are resized to exactly `n`: growing fills the new slots with
fresh `false` flags and started workers; shrinking sets the victims' flags,
wakes them, detaches them (they exit on their own and leave the tracked
state) and truncates both vectors.  The quiescence closure then lets the
remaining workers drain the queue and park. -/
def resize (s : PoolState) (n : Nat) : PoolState :=
  if s.stopped || s.done then s
  else
    settle { s with threads := resizeTo s.threads n (),
                    stop_flags := resizeTo s.stop_flags n false }

/-- `thread_pool::stop` (ctpl_stl.tpp lines 153-200).
`finish = false` (forced): returns immediately if `stopped` is already set —
even when `done` is set it proceeds, by the code's explicit comment, to stop
the completion of the remaining queued tasks; sets `stopped`, sets every
stop flag, discards the queue via `clear_queue` (broken promises), wakes and
joins all workers, and clears the thread and flag vectors.
`finish = true` (graceful): returns immediately if `done` or `stopped` is
already set; sets `done`, wakes all workers and joins them — workers, when
they exist, keep popping and running tasks and only exit once the queue is
empty, so every queued task resolves with its value; with no workers nobody
drains the queue and the final `clear_queue` discards the queued tasks as
broken promises — then clears the thread and flag vectors. -/
def stop (s : PoolState) (finish : Bool) : PoolState :=
  if finish then
    if s.done || s.stopped then s
    else
      { s with done := true, tasks := [], threads := [], stop_flags := [],
               _n_idle := 0,
               promises := resolveIds s.tasks
                 (if s.threads.isEmpty then .brokenPromise else .value)
                 s.promises }
  else
    if s.stopped then s
    else
      { s with stopped := true, tasks := [], threads := [], stop_flags := [],
               _n_idle := 0,
               promises := resolveIds s.tasks .brokenPromise s.promises }

/-- `thread_pool::~thread_pool` (ctpl_stl.tpp lines 59-62): an unconditional
call to `stop(true)`. -/
def destruct (s : PoolState) : PoolState :=
  stop s true

/-- `thread_pool::thread_pool()` (ctpl_stl.tpp lines 46-49): only calls
`init()`; the header comment reads "Creates a thread pool with no threads." -/
def thread_pool_default : PoolState :=
  init

/-- `thread_pool::thread_pool(std::size_t)` (ctpl_stl.tpp lines 51-57):
`init()` followed by `resize(n_threads)`. -/
def thread_pool_n (n : Nat) : PoolState :=
  resize init n

/-- One public operation on the pool. -/
inductive Op where
  | push : Op
  | clearQueue : Op
  | resize : Nat → Op
  | stop : Bool → Op
  deriving DecidableEq, Repr

/-- Effect of one public operation. -/
def step (s : PoolState) : Op → PoolState
  | .push => (push s).1
  | .clearQueue => clear_queue s
  | .resize n => resize s n
  | .stop b => stop s b

/-- The pool state after performing `ops` in order on a freshly
default-constructed pool. -/
def run (ops : List Op) : PoolState :=
  ops.foldl step init

/-- `true` iff the trace contains a forced `stop(false)` call. -/
def hasStopFalse : List Op → Bool
  | [] => false
  | .stop false :: _ => true
  | _ :: rest => hasStopFalse rest

/-- `true` iff the trace never performs a forced `stop(false)` after a
graceful `stop(true)`. -/
def safeTrace : List Op → Bool
  | [] => true
  | .stop true :: rest => !hasStopFalse rest && safeTrace rest
  | _ :: rest => safeTrace rest

/-- Lifecycle invariant maintained by every public operation: once the pool
is retired (either terminal flag set) the thread vector, the stop-flag vector
and the idle counter are all cleared, and the thread and stop-flag vectors
always have the same length. -/
def Inv (s : PoolState) : Prop :=
  (s.stopped = true ∨ s.done = true →
    s.threads = [] ∧ s.stop_flags = [] ∧ s._n_idle = 0) ∧
  s.threads.length = s.stop_flags.length

/-- A not-yet-retired pool with one live worker and one queued, unresolved
task; used as a concrete input for the destructor theorem. -/
def samplePool : PoolState :=
  { threads := [()], stop_flags := [false], tasks := [5],
    promises := fun _ => .unresolved, next_id := 6, done := false,
    stopped := false, _n_idle := 1 }

theorem aq_push_all_eq_append (vs : List Nat) :
    ∀ q : List Nat, aq_push_all q vs = q ++ vs := by
  induction vs with
  | nil => intro q; simp [aq_push_all]
  | cons v vs ih =>
    intro q
    have h : aq_push_all q (v :: vs) = aq_push_all (q ++ [v]) vs := rfl
    rw [h, ih, List.append_assoc]
    rfl

theorem worker_run_eq_self (q : List Nat) : worker_run q = q := by
  unfold worker_run
  induction q with
  | nil => rfl
  | cons x xs ih =>
    simp only [List.length_cons, worker_run_fuel, aq_pop]
    exact congrArg (x :: ·) ih

theorem settle_threads (s : PoolState) : (settle s).threads = s.threads := by
  unfold settle; split <;> rfl

theorem settle_stop_flags (s : PoolState) :
    (settle s).stop_flags = s.stop_flags := by
  unfold settle; split <;> rfl

theorem settle_done (s : PoolState) : (settle s).done = s.done := by
  unfold settle; split <;> rfl

theorem settle_stopped (s : PoolState) : (settle s).stopped = s.stopped := by
  unfold settle; split <;> rfl

theorem resizeTo_length (l : List α) (n : Nat) (fill : α) :
    (resizeTo l n fill).length = n := by
  simp only [resizeTo, List.length_append, List.length_take,
    List.length_replicate]
  omega

theorem stop_false_eq (s : PoolState) :
    stop s false = if s.stopped = true then s
      else { s with stopped := true, tasks := [], threads := [], stop_flags := [],
                    _n_idle := 0,
                    promises := resolveIds s.tasks .brokenPromise s.promises } := by
  unfold stop
  rw [if_neg Bool.false_ne_true]

theorem stop_true_eq (s : PoolState) :
    stop s true = if (s.done || s.stopped) = true then s
      else { s with done := true, tasks := [], threads := [], stop_flags := [],
                    _n_idle := 0,
                    promises := resolveIds s.tasks
                      (if s.threads.isEmpty then .brokenPromise else .value)
                      s.promises } := by
  unfold stop
  rw [if_pos rfl]

theorem stop_false_done (s : PoolState) : (stop s false).done = s.done := by
  rw [stop_false_eq]
  by_cases hst : s.stopped = true
  · rw [if_pos hst]
  · rw [if_neg hst]

theorem stop_true_stopped (s : PoolState) :
    (stop s true).stopped = s.stopped := by
  rw [stop_true_eq]
  by_cases hc : (s.done || s.stopped) = true
  · rw [if_pos hc]
  · rw [if_neg hc]

theorem inv_settle (s : PoolState) (h : Inv s) : Inv (settle s) := by
  unfold settle
  split
  · exact h
  · next hne =>
    obtain ⟨h1, h2⟩ := h
    refine ⟨fun hr => ?_, h2⟩
    exact absurd (List.isEmpty_iff.mpr (h1 hr).1) hne

theorem inv_step (s : PoolState) (op : Op) (h : Inv s) : Inv (step s op) := by
  obtain ⟨h1, h2⟩ := h
  cases op with
  | push =>
    exact inv_settle _ ⟨h1, h2⟩
  | clearQueue =>
    exact ⟨h1, h2⟩
  | resize n =>
    show Inv (resize s n)
    unfold resize
    split
    · exact ⟨h1, h2⟩
    · next hc =>
      apply inv_settle
      constructor
      · intro hr
        have hr' : s.stopped = true ∨ s.done = true := hr
        rcases hr' with h | h <;> simp [h] at hc
      · simp [resizeTo_length]
  | stop b =>
    show Inv (stop s b)
    cases b
    · rw [stop_false_eq]
      by_cases hst : s.stopped = true
      · rw [if_pos hst]; exact ⟨h1, h2⟩
      · rw [if_neg hst]; exact ⟨fun _ => ⟨rfl, rfl, rfl⟩, rfl⟩
    · rw [stop_true_eq]
      by_cases hc : (s.done || s.stopped) = true
      · rw [if_pos hc]; exact ⟨h1, h2⟩
      · rw [if_neg hc]; exact ⟨fun _ => ⟨rfl, rfl, rfl⟩, rfl⟩

theorem inv_foldl (ops : List Op) :
    ∀ s : PoolState, Inv s → Inv (ops.foldl step s) := by
  induction ops with
  | nil => intro s h; exact h
  | cons op rest ih =>
    intro s h
    rw [List.foldl_cons]
    exact ih _ (inv_step s op h)

theorem inv_init : Inv init := by
  refine ⟨fun hr => ?_, rfl⟩
  rcases hr with hr | hr <;> simp [init] at hr

theorem inv_run (ops : List Op) : Inv (run ops) :=
  inv_foldl ops init inv_init

theorem push_done (s : PoolState) : (push s).1.done = s.done := by
  simp [push, settle_done]

theorem push_stopped (s : PoolState) : (push s).1.stopped = s.stopped := by
  simp [push, settle_stopped]

theorem resize_done (s : PoolState) (n : Nat) :
    (resize s n).done = s.done := by
  unfold resize
  split
  · rfl
  · rw [settle_done]

theorem resize_stopped (s : PoolState) (n : Nat) :
    (resize s n).stopped = s.stopped := by
  unfold resize
  split
  · rfl
  · rw [settle_stopped]

theorem stop_flag_aux : ∀ (ops : List Op) (s : PoolState),
    safeTrace ops = true →
    (s.done = true → hasStopFalse ops = false) →
    ¬(s.done = true ∧ s.stopped = true) →
    ¬((ops.foldl step s).done = true ∧ (ops.foldl step s).stopped = true) := by
  intro ops
  induction ops with
  | nil =>
    intro s _ _ h3
    simpa using h3
  | cons op rest ih =>
    intro s h1 h2 h3
    rw [List.foldl_cons]
    cases op with
    | push =>
      refine ih (step s .push) ?_ ?_ ?_
      · simpa [safeTrace] using h1
      · intro hd
        have hsd : s.done = true := by rwa [show step s .push = (push s).1 from rfl, push_done] at hd
        simpa [hasStopFalse] using h2 hsd
      · intro hcontra
        rw [show step s .push = (push s).1 from rfl, push_done, push_stopped] at hcontra
        exact h3 hcontra
    | clearQueue =>
      refine ih (step s .clearQueue) ?_ ?_ ?_
      · simpa [safeTrace] using h1
      · intro hd
        simpa [hasStopFalse] using h2 hd
      · exact h3
    | resize n =>
      refine ih (step s (.resize n)) ?_ ?_ ?_
      · simpa [safeTrace] using h1
      · intro hd
        have hsd : s.done = true := by rwa [show step s (.resize n) = resize s n from rfl, resize_done] at hd
        simpa [hasStopFalse] using h2 hsd
      · intro hcontra
        rw [show step s (.resize n) = resize s n from rfl, resize_done, resize_stopped] at hcontra
        exact h3 hcontra
    | stop b =>
      cases b
      · -- forced stop(false): the head op is a stop(false), so `h2` forces
        -- `s.done = false`, and stop(false) never sets `done`
        have hdf : s.done = false := by
          cases hsd : s.done
          · rfl
          · exfalso
            have := h2 hsd
            simp [hasStopFalse] at this
        refine ih (step s (.stop false)) ?_ ?_ ?_
        · simpa [safeTrace] using h1
        · intro hd
          exfalso
          rw [show step s (.stop false) = stop s false from rfl,
              stop_false_done, hdf] at hd
          exact Bool.false_ne_true hd
        · intro hcontra
          rw [show step s (.stop false) = stop s false from rfl,
              stop_false_done, hdf] at hcontra
          exact Bool.false_ne_true hcontra.1
      · -- graceful stop(true): the trace condition forbids any later
        -- stop(false), and stop(true) never sets `stopped`
        have hparts : hasStopFalse rest = false ∧ safeTrace rest = true := by
          have h1' : (!hasStopFalse rest && safeTrace rest) = true := by
            simpa [safeTrace] using h1
          constructor
          · have := (Bool.and_eq_true _ _).mp h1' |>.1
            simpa using this
          · exact (Bool.and_eq_true _ _).mp h1' |>.2
        refine ih (step s (.stop true)) hparts.2 (fun _ => hparts.1) ?_
        show ¬((stop s true).done = true ∧ (stop s true).stopped = true)
        intro hcontra
        by_cases hc : (s.done || s.stopped) = true
        · have hse : stop s true = s := by rw [stop_true_eq, if_pos hc]
          rw [hse] at hcontra
          exact h3 hcontra
        · have hstf : s.stopped = false := by
            cases hs2 : s.stopped
            · rfl
            · exact absurd (by simp [hs2]) hc
          have := hcontra.2
          rw [stop_true_stopped, hstf] at this
          exact Bool.false_ne_true this

/-- C1 counterexample: on a pool where `stop(false)` has completed, `push`
does not report an error — it silently enqueues the task (`tasks` becomes
`[0]`), the returned future is unresolved, and it is still unresolved after
the destructor runs (the implicit `stop(true)` returns early on a stopped
pool), so it never resolves. -/
theorem C1_counterexample :
    (push (run [Op.stop false])).1.tasks = [0] ∧
    promiseOf (push (run [Op.stop false])).1 0 = .unresolved ∧
    promiseOf (destruct (push (run [Op.stop false])).1) 0 = .unresolved := by
  refine ⟨by decide, by decide, by decide⟩

/-- C1 (amended): a `push` after `stop()` has completed — in EITHER mode,
forced (`stopped`) or graceful (`done`) — is NOT reported to the caller as a
synchronous error.  `thread_pool::push` checks neither `stopped` nor `done`
and has no error path: on a retired pool it silently appends the task to the
queue and returns a future that is unresolved and stays unresolved even
after the pool is destroyed, since the destructor's implicit `stop(true)`
returns early once either terminal flag is set. -/
theorem C1_push_after_stop (s : PoolState)
    (h1 : s.stopped = true ∨ s.done = true) (h2 : s.threads = [])
    (h3 : s.promises s.next_id = .unresolved) :
    (push s).1.tasks = s.tasks ++ [(push s).2] ∧
    promiseOf (push s).1 (push s).2 = .unresolved ∧
    promiseOf (destruct (push s).1) (push s).2 = .unresolved := by
  have hempty : ({ s with tasks := s.tasks ++ [s.next_id],
                          next_id := s.next_id + 1 } : PoolState).threads.isEmpty = true := by
    show s.threads.isEmpty = true
    rw [h2]
    rfl
  have hp : (push s).1 = { s with tasks := s.tasks ++ [s.next_id],
                                  next_id := s.next_id + 1 } := by
    show settle _ = _
    unfold settle
    rw [if_pos hempty]
  refine ⟨by rw [hp]; rfl, ?_, ?_⟩
  · rw [hp]
    exact h3
  · rw [hp]
    show promiseOf (stop _ true) _ = _
    have hds : (s.done || s.stopped) = true := by
      rcases h1 with h | h
      · rw [h, Bool.or_true]
      · rw [h, Bool.true_or]
    rw [stop_true_eq, if_pos hds]
    exact h3

/-- C1 witness: the amended statement applied to a pool retired by a
completed GRACEFUL stop — `done = true`, `stopped = false` — obtained by one
push followed by `stop(true)`; a later push still silently enqueues and its
future never resolves. -/
theorem C1_witness :
    ((run [Op.push, Op.stop true]).stopped = true ∨
     (run [Op.push, Op.stop true]).done = true) ∧
    (run [Op.push, Op.stop true]).threads = [] ∧
    (run [Op.push, Op.stop true]).promises (run [Op.push, Op.stop true]).next_id = .unresolved ∧
    ((push (run [Op.push, Op.stop true])).1.tasks =
       (run [Op.push, Op.stop true]).tasks ++ [(push (run [Op.push, Op.stop true])).2] ∧
     promiseOf (push (run [Op.push, Op.stop true])).1
       (push (run [Op.push, Op.stop true])).2 = .unresolved ∧
     promiseOf (destruct (push (run [Op.push, Op.stop true])).1)
       (push (run [Op.push, Op.stop true])).2 = .unresolved) :=
  ⟨Or.inr (by decide), by decide, by decide,
   C1_push_after_stop _ (Or.inr (by decide)) (by decide) (by decide)⟩

/-- C2 counterexample: `stop(true)` followed by `stop(false)` leaves BOTH
terminal flags set — `stop(false)` only early-returns on `stopped`, and by
the code's explicit comment proceeds after a completed `stop(true)`. -/
theorem C2_counterexample :
    (run [Op.stop true, Op.stop false]).done = true ∧
    (run [Op.stop true, Op.stop false]).stopped = true := by
  refine ⟨by decide, by decide⟩

/-- C2 (amended): over any operation sequence in which no forced
`stop(false)` call follows a graceful `stop(true)` call, at most one of the
terminal flags `done`/`stopped` is ever set; the only interleaving that sets
both is a `stop(false)` performed after a completed `stop(true)`. -/
theorem C2_flags_mutual_exclusion (ops : List Op)
    (h : safeTrace ops = true) :
    ¬((run ops).done = true ∧ (run ops).stopped = true) := by
  apply stop_flag_aux ops init h
  · intro hd
    simp [init] at hd
  · intro hcontra
    simp [init] at hcontra

/-- C2 witness: a trace with a push, a forced stop and a later graceful stop
(the graceful call after the forced one is fine — it early-returns). -/
theorem C2_witness :
    safeTrace [Op.push, Op.stop false, Op.stop true] = true ∧
    ¬((run [Op.push, Op.stop false, Op.stop true]).done = true ∧
      (run [Op.push, Op.stop false, Op.stop true]).stopped = true) :=
  ⟨by decide, C2_flags_mutual_exclusion _ (by decide)⟩

/-- C3 counterexample: the default constructor creates a pool with ZERO
workers (its only action is `init()`; the header comment reads "Creates a
thread pool with no threads"), so on any machine with 1 hardware thread
`size()` right after default construction differs from the hardware thread
count. -/
theorem C3_counterexample :
    size thread_pool_default = 0 ∧ size thread_pool_default ≠ 1 := by
  refine ⟨rfl, by decide⟩

/-- C3 (amended): default construction yields a pool with zero workers; a
hardware-thread-count pool must be requested explicitly through the
`thread_pool(n)` constructor, which yields exactly `n` workers. -/
theorem C3_default_pool_size (n : Nat) :
    size thread_pool_default = 0 ∧ size (thread_pool_n n) = n := by
  constructor
  · rfl
  · show size (resize init n) = n
    unfold resize
    rw [if_neg (by simp [init])]
    show (settle _).threads.length = n
    rw [settle_threads]
    exact resizeTo_length _ _ _

/-- C4 (confirmed): a task removed from the queue without being executed —
by `clear_queue`, or by the `clear_queue` inside a forced `stop(false)` —
has its future resolved to the defined broken-promise failure (deleting the
task destroys its never-invoked packaged task), and never to a value. -/
theorem C4_discarded_tasks_fail (s : PoolState) (id : Nat)
    (hq : id ∈ s.tasks) (hu : promiseOf s id = .unresolved) :
    promiseOf (clear_queue s) id = .brokenPromise ∧
    (s.stopped = false → promiseOf (stop s false) id = .brokenPromise) ∧
    promiseOf (clear_queue s) id ≠ .value ∧
    (s.stopped = false → promiseOf (stop s false) id ≠ .value) := by
  have hres : resolveIds s.tasks .brokenPromise s.promises id = .brokenPromise := by
    unfold resolveIds
    rw [if_pos ⟨hq, hu⟩]
  have hstop : s.stopped = false → promiseOf (stop s false) id = .brokenPromise := by
    intro hst
    rw [stop_false_eq, if_neg (by rw [hst]; exact Bool.false_ne_true)]
    exact hres
  refine ⟨hres, hstop, ?_, ?_⟩
  · intro hv
    have hbad : (PromiseState.brokenPromise : PromiseState) = .value := by
      rw [← hres]
      exact hv
    exact PromiseState.noConfusion hbad
  · intro hst hv
    have hbad : (PromiseState.brokenPromise : PromiseState) = .value := by
      rw [← hstop hst]
      exact hv
    exact PromiseState.noConfusion hbad

/-- C4 witness: one task pushed into a fresh (zero-worker) pool, then
discarded. -/
theorem C4_witness :
    0 ∈ (run [Op.push]).tasks ∧
    promiseOf (run [Op.push]) 0 = .unresolved ∧
    (promiseOf (clear_queue (run [Op.push])) 0 = .brokenPromise ∧
     ((run [Op.push]).stopped = false →
       promiseOf (stop (run [Op.push]) false) 0 = .brokenPromise) ∧
     promiseOf (clear_queue (run [Op.push])) 0 ≠ .value ∧
     ((run [Op.push]).stopped = false →
       promiseOf (stop (run [Op.push]) false) 0 ≠ .value)) :=
  ⟨by decide, by decide, C4_discarded_tasks_fail _ 0 (by decide) (by decide)⟩

/-- C5 (confirmed): `atomic_queue::push` always succeeds, appending the unit
at the back and returning `true`; `pop` on a non-empty queue removes and
returns exactly the front (oldest) unit with `true`; `pop` on an empty queue
returns `false` and leaves the queue unchanged. -/
theorem C5_queue_ops (q xs : List Nat) (v x : Nat) :
    aq_push q v = (q ++ [v], true) ∧
    aq_pop (x :: xs) = (xs, some x) ∧
    aq_pop ([] : List Nat) = ([], none) :=
  ⟨rfl, rfl, rfl⟩

/-- C6 (confirmed): the queue is FIFO — sequentially pushing `vs` onto a
queue holding `q` and letting a single worker drain it executes the units in
exactly the order they entered: first the previous contents `q`, then `vs`
in submission order. -/
theorem C6_fifo_single_worker (q vs : List Nat) :
    worker_run (aq_push_all q vs) = q ++ vs := by
  rw [aq_push_all_eq_append, worker_run_eq_self]

/-- C7 (confirmed): once either terminal flag is set, `resize(n)` is a
complete no-op for every `n` — the returned state is the input state, so the
worker collection, stop-flag collection, queue, flags and counters are all
unchanged. -/
theorem C7_resize_noop_after_stop (s : PoolState) (n : Nat)
    (h : s.stopped = true ∨ s.done = true) :
    resize s n = s := by
  unfold resize
  rcases h with h | h
  · rw [if_pos (by rw [h]; rfl)]
  · rw [if_pos (by rw [h]; simp)]

/-- C7 witness: resizing to 3 after a forced stop changes nothing. -/
theorem C7_witness :
    ((run [Op.stop false]).stopped = true ∨ (run [Op.stop false]).done = true) ∧
    resize (run [Op.stop false]) 3 = run [Op.stop false] :=
  ⟨Or.inl (by decide), C7_resize_noop_after_stop _ 3 (Or.inl (by decide))⟩

/-- C8 counterexample: a pool with ZERO workers and one queued task, when
destroyed, does NOT run the queued task to completion — nobody drains the
queue, and the destructor's final `clear_queue` discards it, resolving its
future with a broken-promise failure instead of a value. -/
theorem C8_counterexample :
    (run [Op.push]).tasks = [0] ∧
    promiseOf (destruct (run [Op.push])) 0 = .brokenPromise ∧
    promiseOf (destruct (run [Op.push])) 0 ≠ .value := by
  refine ⟨by decide, by decide, by decide⟩

/-- C8 (amended): destroying a pool on which `stop()` has not yet been
called performs the implicit graceful `stop(true)`: the thread, stop-flag
and queue storage are all released and the idle counter is zero — and,
PROVIDED the pool has at least one worker, every queued task is run to
completion (its future resolves with its value).  With zero workers, queued
tasks are instead discarded and their futures fail (see the
counterexample). -/
theorem C8_destructor_graceful (s : PoolState)
    (h1 : s.stopped = false) (h2 : s.done = false) (h3 : s.threads ≠ []) :
    (destruct s).threads = [] ∧ (destruct s).stop_flags = [] ∧
    (destruct s).tasks = [] ∧ n_idle (destruct s) = 0 ∧
    (destruct s).done = true ∧
    ∀ id ∈ s.tasks, promiseOf s id = .unresolved →
      promiseOf (destruct s) id = .value := by
  have hc : ¬(s.done || s.stopped) = true := by
    rw [h1, h2]
    exact Bool.false_ne_true
  have hd : destruct s = { s with done := true, tasks := [], threads := [],
                                  stop_flags := [], _n_idle := 0,
                                  promises := resolveIds s.tasks
                                    (if s.threads.isEmpty then .brokenPromise else .value)
                                    s.promises } := by
    show stop s true = _
    rw [stop_true_eq, if_neg hc]
  have hne : s.threads.isEmpty = false := by
    cases hthreads : s.threads with
    | nil => exact absurd hthreads h3
    | cons a l => rfl
  rw [hd]
  refine ⟨rfl, rfl, rfl, rfl, rfl, ?_⟩
  intro id hid hu
  show resolveIds s.tasks
    (if s.threads.isEmpty then .brokenPromise else .value) s.promises id = .value
  rw [hne, if_neg Bool.false_ne_true]
  unfold resolveIds
  rw [if_pos ⟨hid, hu⟩]

/-- C8 witness: the amended statement applied to a live one-worker pool with
one queued, unresolved task. -/
theorem C8_witness :
    samplePool.stopped = false ∧ samplePool.done = false ∧
    samplePool.threads ≠ [] ∧
    ((destruct samplePool).threads = [] ∧
     (destruct samplePool).stop_flags = [] ∧
     (destruct samplePool).tasks = [] ∧
     n_idle (destruct samplePool) = 0 ∧
     (destruct samplePool).done = true ∧
     ∀ id ∈ samplePool.tasks, promiseOf samplePool id = .unresolved →
       promiseOf (destruct samplePool) id = .value) :=
  ⟨rfl, rfl, by decide, C8_destructor_graceful samplePool rfl rfl (by decide)⟩

/-- C9 (confirmed): after every completed public operation sequence — and
after construction with any requested worker count — the vector of worker
threads and the vector of stop flags have the same length. -/
theorem C9_threads_flags_length (ops : List Op) (n : Nat) :
    (run ops).threads.length = (run ops).stop_flags.length ∧
    (thread_pool_n n).threads.length = (thread_pool_n n).stop_flags.length := by
  constructor
  · exact (inv_run ops).2
  · have h : Inv (thread_pool_n n) := inv_step init (.resize n) inv_init
    exact h.2

/-- C10 (confirmed): after any call to `stop` (either mode) returns — on any
reachable pool state — `size()` is 0, the stop-flag collection is empty and
`n_idle()` is 0. -/
theorem C10_stop_clears (ops : List Op) (b : Bool) :
    size (run (ops ++ [Op.stop b])) = 0 ∧
    (run (ops ++ [Op.stop b])).stop_flags = [] ∧
    n_idle (run (ops ++ [Op.stop b])) = 0 := by
  have hrun : run (ops ++ [Op.stop b]) = stop (run ops) b := by
    unfold run
    rw [List.foldl_append]
    rfl
  rw [hrun]
  have hinv := inv_run ops
  cases b
  · rw [stop_false_eq]
    by_cases hst : (run ops).stopped = true
    · rw [if_pos hst]
      obtain ⟨ht, hf, hi⟩ := hinv.1 (Or.inl hst)
      exact ⟨by show (run ops).threads.length = 0; rw [ht]; rfl, hf, hi⟩
    · rw [if_neg hst]
      exact ⟨rfl, rfl, rfl⟩
  · rw [stop_true_eq]
    by_cases hc : ((run ops).done || (run ops).stopped) = true
    · rw [if_pos hc]
      have hor : (run ops).stopped = true ∨ (run ops).done = true := by
        have hor' : (run ops).done = true ∨ (run ops).stopped = true := by
          simpa using hc
        exact hor'.symm
      obtain ⟨ht, hf, hi⟩ := hinv.1 hor
      exact ⟨by show (run ops).threads.length = 0; rw [ht]; rfl, hf, hi⟩
    · rw [if_neg hc]
      exact ⟨rfl, rfl, rfl⟩

end CTPL
